import Mathlib

/-!
# Verification of the quadtree-geo library

Shallow embedding of `src/lib/quadtree.js` (class `Quadtree`): geographic
quadtree encoding/decoding, neighbor and bounding-box operations, and the
prefix-bucketed approximate k-nearest search.

Modelling conventions:
* JavaScript numbers are modelled by `ℚ`.  All arithmetic the codec performs
  is halving, addition and subtraction, which is exact dyadic arithmetic, so
  the rational model computes exactly the values the reference computes on
  inputs that are representable.
* Encoded strings are modelled as `List Char`; the reference digits are the
  characters `'1'`–`'4'` and the out-of-band neighbor result is `"-1"`,
  i.e. `['-', '1']`.
* The Haversine `distance` method uses transcendental functions; it enters
  the search algorithm only through the comparator, so the search is
  parametrised over an arbitrary distance function `dist`, and theorems about
  the search quantify over `dist` (the Haversine function is one instance).
-/

/-- A geographic coordinate, `{lng, lat}` in the source. -/
structure Coordinate where
  lng : ℚ
  lat : ℚ
deriving DecidableEq, Repr

/-- The `Quadtree` class instance: the region bounds stored by the
constructor (`minLng`, `minLat`, `maxLng`, `maxLat`). -/
structure Quadtree where
  minLng : ℚ
  minLat : ℚ
  maxLng : ℚ
  maxLat : ℚ
deriving DecidableEq, Repr

/-- The constructor's `assert` conditions:
`-90 <= minLat && minLat <= maxLat && maxLat <= 90` and
`-180 <= minLng && minLng <= maxLng && maxLng <= 180`. -/
def Quadtree.Valid (qt : Quadtree) : Prop :=
  (-90 ≤ qt.minLat ∧ qt.minLat ≤ qt.maxLat ∧ qt.maxLat ≤ 90) ∧
    (-180 ≤ qt.minLng ∧ qt.minLng ≤ qt.maxLng ∧ qt.maxLng ≤ 180)

instance (qt : Quadtree) : Decidable qt.Valid := by
  unfold Quadtree.Valid; infer_instance

/-- The initial `origin` of `encode`/`decode`: the region center. -/
def Quadtree.center (qt : Quadtree) : Coordinate :=
  ⟨(qt.minLng + qt.maxLng) / 2, (qt.minLat + qt.maxLat) / 2⟩

/-- The initial `range` of `encode`/`decode`: the region half-extents. -/
def Quadtree.halfRange (qt : Quadtree) : Coordinate :=
  ⟨(qt.maxLng - qt.minLng) / 2, (qt.maxLat - qt.minLat) / 2⟩

/-- `range.lng /= 2; range.lat /= 2` -/
def halveRange (r : Coordinate) : Coordinate :=
  ⟨r.lng / 2, r.lat / 2⟩

/-- One iteration of the `encode` loop body after the range has been halved:
the four-way branch on `coordinate` versus the running `origin`, returning
the emitted digit and the shifted origin.  The branch order and the `>=`/`<=`
comparisons are exactly those of `encode` (quadtree.js lines 41–57). -/
def encodeStep (c o r : Coordinate) : Char × Coordinate :=
  if c.lng ≥ o.lng ∧ c.lat ≥ o.lat then
    ('1', ⟨o.lng + r.lng, o.lat + r.lat⟩)
  else if c.lng ≤ o.lng ∧ c.lat ≥ o.lat then
    ('2', ⟨o.lng - r.lng, o.lat + r.lat⟩)
  else if c.lng ≤ o.lng ∧ c.lat ≤ o.lat then
    ('3', ⟨o.lng - r.lng, o.lat - r.lat⟩)
  else
    ('4', ⟨o.lng + r.lng, o.lat - r.lat⟩)

/-- The `encode` loop: runs `n` iterations from state `(o, r)`, returning the
emitted digit string together with the final origin and range. -/
def encodeAux (c : Coordinate) : Coordinate → Coordinate → ℕ → List Char × Coordinate × Coordinate
  | o, r, 0 => ([], o, r)
  | o, r, n + 1 =>
    let r2 := halveRange r
    let step := encodeStep c o r2
    let rest := encodeAux c step.2 r2 n
    (step.1 :: rest.1, rest.2)

/-- `Quadtree.encode(coordinate, precision)` (quadtree.js lines 29–61). -/
def Quadtree.encode (qt : Quadtree) (c : Coordinate) (precision : ℕ) : List Char :=
  (encodeAux c qt.center qt.halfRange precision).1

/-- The per-digit origin shift of the `decode` loop (quadtree.js lines 79–91).
An unrecognized digit falls through every branch and leaves the origin
unchanged (the range is still halved by the caller). -/
def decodeShift (q : Char) (o r : Coordinate) : Coordinate :=
  if q = '1' then ⟨o.lng + r.lng, o.lat + r.lat⟩
  else if q = '2' then ⟨o.lng - r.lng, o.lat + r.lat⟩
  else if q = '3' then ⟨o.lng - r.lng, o.lat - r.lat⟩
  else if q = '4' then ⟨o.lng + r.lng, o.lat - r.lat⟩
  else o

/-- The `decode` loop over the digit string, threading `(origin, range)`. -/
def decodeAux : Coordinate → Coordinate → List Char → Coordinate × Coordinate
  | o, r, [] => (o, r)
  | o, r, q :: rest =>
    let r2 := halveRange r
    decodeAux (decodeShift q o r2) r2 rest

/-- The result of `decode`: `{origin, error}`. -/
structure DecodedCell where
  origin : Coordinate
  error : Coordinate
deriving DecidableEq, Repr

/-- `Quadtree.decode(encoded)` (quadtree.js lines 68–95). -/
def Quadtree.decode (qt : Quadtree) (encoded : List Char) : DecodedCell :=
  let st := decodeAux qt.center qt.halfRange encoded
  ⟨st.1, st.2⟩

/-- The candidate coordinate computed by `neighbor` (quadtree.js lines
106–109): `origin + error * offset * 2` on each axis. -/
def Quadtree.neighborCandidate (qt : Quadtree) (encoded : List Char) (east north : ℤ) : Coordinate :=
  let d := qt.decode encoded
  ⟨d.origin.lng + d.error.lng * east * 2, d.origin.lat + d.error.lat * north * 2⟩

/-- The out-of-bounds test of `neighbor` (quadtree.js lines 110–113). -/
def Quadtree.outOfBounds (qt : Quadtree) (c : Coordinate) : Prop :=
  c.lng < qt.minLng ∨ c.lat < qt.minLat ∨ c.lng > qt.maxLng ∨ c.lat > qt.maxLat

instance (qt : Quadtree) (c : Coordinate) : Decidable (qt.outOfBounds c) := by
  unfold Quadtree.outOfBounds; infer_instance

/-- `Quadtree.neighbor(encoded, east, north)` (quadtree.js lines 104–117);
returns the string `"-1"` when the candidate leaves the region. -/
def Quadtree.neighbor (qt : Quadtree) (encoded : List Char) (east north : ℤ) : List Char :=
  let cand := qt.neighborCandidate encoded east north
  if qt.outOfBounds cand then ['-', '1']
  else qt.encode cand encoded.length

/-- A lng/lat rectangle, as returned by `boundingBox`. -/
structure Rect where
  minLng : ℚ
  minLat : ℚ
  maxLng : ℚ
  maxLat : ℚ
deriving DecidableEq, Repr

/-- `Quadtree.boundingBox(encoded)` (quadtree.js lines 124–132). -/
def Quadtree.boundingBox (qt : Quadtree) (encoded : List Char) : Rect :=
  let d := qt.decode encoded
  ⟨d.origin.lng - d.error.lng, d.origin.lat - d.error.lat,
    d.origin.lng + d.error.lng, d.origin.lat + d.error.lat⟩

/-- The default `Quadtree` constructed with no arguments:
bounds `(-180, -90, 180, 90)`. -/
def qtDefault : Quadtree := ⟨-180, -90, 180, 90⟩

/-- The lng-direction of the origin shift for an encode digit: `1` for the
digits that move toward higher lng (`'1'`, `'4'`), `-1` otherwise. -/
def digitLngDir (d : Char) : ℤ :=
  if d = '1' ∨ d = '4' then 1 else -1

/-- The lat-direction of the origin shift for an encode digit: `1` for the
digits that move toward higher lat (`'1'`, `'2'`), `-1` otherwise. -/
def digitLatDir (d : Char) : ℤ :=
  if d = '1' ∨ d = '2' then 1 else -1

/-- A digit of the quadrant alphabet (a Path symbol per the spec). -/
def ValidDigit (d : Char) : Prop :=
  d = '1' ∨ d = '2' ∨ d = '3' ∨ d = '4'

instance (d : Char) : Decidable (ValidDigit d) := by
  unfold ValidDigit; infer_instance

/-- `encode` called with an integer precision: the JS loop
`for (let i = 0; i < precision; i++)` executes `max(precision, 0)`
iterations, so a negative precision yields the empty string. -/
def Quadtree.encodeInt (qt : Quadtree) (c : Coordinate) (precision : ℤ) : List Char :=
  qt.encode c precision.toNat

/-- A search point `{lng, lat, encoded}`: a coordinate together with its
caller-supplied path. -/
structure AnnotatedPoint where
  lng : ℚ
  lat : ℚ
  encoded : List Char
deriving DecidableEq, Repr

/-- The coordinate carried by a search point. -/
def AnnotatedPoint.coord (p : AnnotatedPoint) : Coordinate :=
  ⟨p.lng, p.lat⟩

/-- `getPrefixMatchLength(str1, str2)` (quadtree.js lines 164–175): length of
the longest common leading digit run. -/
def getPrefixMatchLength : List Char → List Char → ℕ
  | a :: as, b :: bs => if a = b then getPrefixMatchLength as bs + 1 else 0
  | _, _ => 0

/-- The bucket of points whose prefix-match length with the target's path is
exactly `i` (quadtree.js lines 196–198; the source annotates copies of the
points with their `prefixMatch` field and filters on it — here the match
length is recomputed rather than stored). -/
def bucketAt (targetEnc : List Char) (points : List AnnotatedPoint) (i : ℕ) :
    List AnnotatedPoint :=
  points.filter (fun p => decide (getPrefixMatchLength targetEnc p.encoded = i))

/-- The candidate-collection loop (quadtree.js lines 200–222), recursing over
the bucket index from `target.encoded.length` down to `0`, carrying the
accumulated candidates and the `breakAfterNextStep` flag; after a level that
did not break, the flag becomes `candidates.length >= k`. -/
def collectAux (targetEnc : List Char) (points : List AnnotatedPoint) (k : ℤ) :
    ℕ → List AnnotatedPoint → Bool → List AnnotatedPoint
  | 0, acc, _ => acc ++ bucketAt targetEnc points 0
  | i + 1, acc, brk =>
    let acc2 := acc ++ bucketAt targetEnc points (i + 1)
    if brk then acc2
    else collectAux targetEnc points k i acc2 (decide (k ≤ (acc2.length : ℤ)))

/-- The candidate set accumulated by the search loop. -/
def collectCandidates (targetEnc : List Char) (points : List AnnotatedPoint) (k : ℤ) :
    List AnnotatedPoint :=
  collectAux targetEnc points k targetEnc.length [] false

/-- JavaScript `array.slice(0, k)` for integer `k`: a negative `k` counts
from the end of the array. -/
def jsSlice {α : Type} (l : List α) (k : ℤ) : List α :=
  if k < 0 then l.take ((l.length : ℤ) + k).toNat else l.take k.toNat

/-- The sort comparator `(a, b) => a.distance - b.distance` of the proximity
search, as an ordering relation on points; `dist` abstracts `this.distance`
(the Haversine formula in the source). -/
def distRel (dist : Coordinate → Coordinate → ℚ) (target : Coordinate)
    (a b : AnnotatedPoint) : Prop :=
  dist target a.coord ≤ dist target b.coord

instance (dist : Coordinate → Coordinate → ℚ) (target : Coordinate) :
    DecidableRel (distRel dist target) := fun _ _ =>
  inferInstanceAs (Decidable (_ ≤ _))

/-- The same comparator on bare coordinates, for
`sortPointsByHaversineFormula`. -/
def coordDistRel (dist : Coordinate → Coordinate → ℚ) (target : Coordinate)
    (a b : Coordinate) : Prop :=
  dist target a ≤ dist target b

instance (dist : Coordinate → Coordinate → ℚ) (target : Coordinate) :
    DecidableRel (coordDistRel dist target) := fun _ _ =>
  inferInstanceAs (Decidable (_ ≤ _))

/-- `sortPointsByProximityToTarget(target, points, k)` (quadtree.js lines
184–233), with the Haversine distance abstracted as `dist`.  JavaScript's
`Array.prototype.sort` is a stable comparison sort, modelled by the stable
`List.insertionSort`. -/
def sortPointsByProximityToTarget (dist : Coordinate → Coordinate → ℚ)
    (target : AnnotatedPoint) (points : List AnnotatedPoint) (k : ℤ) :
    List AnnotatedPoint :=
  if points.length = 0 then []
  else
    jsSlice
      (List.insertionSort (distRel dist target.coord)
        (collectCandidates target.encoded points k)) k

/-- `sortPointsByHaversineFormula(target, points)` (quadtree.js lines
241–247): `points.sort(comparator)` sorts the caller's array IN PLACE and
returns a reference to that same array.  The model returns the pair
(return value, contents of the caller's `points` argument after the call);
in the source both components are the same array object. -/
def sortPointsByHaversineFormula (dist : Coordinate → Coordinate → ℚ)
    (target : Coordinate) (points : List Coordinate) :
    List Coordinate × List Coordinate :=
  let sorted := List.insertionSort (coordDistRel dist target) points
  (sorted, sorted)

instance (dist : Coordinate → Coordinate → ℚ) (target : Coordinate) :
    IsTotal AnnotatedPoint (distRel dist target) :=
  ⟨fun _ _ => le_total _ _⟩

instance (dist : Coordinate → Coordinate → ℚ) (target : Coordinate) :
    IsTrans AnnotatedPoint (distRel dist target) :=
  ⟨fun _ _ _ => le_trans⟩

instance (dist : Coordinate → Coordinate → ℚ) (target : Coordinate) :
    IsTotal Coordinate (coordDistRel dist target) :=
  ⟨fun _ _ => le_total _ _⟩

instance (dist : Coordinate → Coordinate → ℚ) (target : Coordinate) :
    IsTrans Coordinate (coordDistRel dist target) :=
  ⟨fun _ _ _ => le_trans⟩

/-- Following the spec's words (C3): scanning bucket indices downward from
`i` with `c` candidates already accumulated, the index of the lowest bucket
the scan visits: one below the first index at which the accumulated count
reaches or exceeds `k` (clamped at `0`), and `0` when the count never
reaches `k`. -/
def specStopIndex (targetEnc : List Char) (points : List AnnotatedPoint) (k : ℤ) :
    ℕ → ℤ → ℕ
  | 0, _ => 0
  | i + 1, c =>
    if k ≤ c + ((bucketAt targetEnc points (i + 1)).length : ℤ) then i
    else specStopIndex targetEnc points k i (c + ((bucketAt targetEnc points (i + 1)).length : ℤ))

/-- The union, in downward scan order, of the buckets from index `hi` down
to index `lo`. -/
def bucketsDescFromTo (targetEnc : List Char) (points : List AnnotatedPoint)
    (lo hi : ℕ) : List AnnotatedPoint :=
  ((List.range' lo (hi + 1 - lo)).reverse).flatMap (bucketAt targetEnc points)

/-- Modelled from the spec: the repository's `envelop(bbox, precision)`
implementation is not among the sources (only its test file is present).
This is the eastward row walk of the spec's envelope scan: walk east from
`cur` via `neighbor(., +1, 0)` until reaching the row's east-edge cell
`stop`, collecting every visited Path; a `NotFound` (`"-1"`) neighbor result
terminates the scan.  `fuel` bounds the walk (a row at precision `p` has at
most `2^p` cells). -/
def walkEast (qt : Quadtree) : ℕ → List Char → List Char → List (List Char)
  | 0, cur, _ => [cur]
  | fuel + 1, cur, stop =>
    if cur = stop then [cur]
    else
      let nxt := qt.neighbor cur 1 0
      if nxt = ['-', '1'] then [cur]
      else cur :: walkEast qt fuel nxt stop

/-- Modelled from the spec: the row loop of the envelope scan — scan the
current row, then step the row's start and end cells north via
`neighbor(., 0, +1)` and repeat, stopping once the row just scanned ended at
the max-corner cell (the northern boundary) or a northward neighbor is
`NotFound`. -/
def envelopRows (qt : Quadtree) (rowFuel : ℕ) (maxCell : List Char) :
    ℕ → List Char → List Char → List (List Char)
  | 0, rowStart, rowEnd => walkEast qt rowFuel rowStart rowEnd
  | fuel + 1, rowStart, rowEnd =>
    let row := walkEast qt rowFuel rowStart rowEnd
    if rowEnd = maxCell then row
    else
      let s := qt.neighbor rowStart 0 1
      let e := qt.neighbor rowEnd 0 1
      if s = ['-', '1'] ∨ e = ['-', '1'] then row
      else row ++ envelopRows qt rowFuel maxCell fuel s e

/-- Modelled from the spec: `envelop(bbox, precision)` — the implementation
is absent from the sources (its test file calls `quadtree.envelop`).  Encode
the bbox's min and max corners at `precision`; scan rows from the min-corner
cell, each row walking east to the row's east-edge cell (the cell of
`(maxLng, minLat)`, stepped north along with the row start); finally append
the max-corner cell. -/
def Quadtree.envelop (qt : Quadtree) (bbox : Rect) (precision : ℕ) : List (List Char) :=
  let minCell := qt.encode ⟨bbox.minLng, bbox.minLat⟩ precision
  let rowEndCell := qt.encode ⟨bbox.maxLng, bbox.minLat⟩ precision
  let maxCell := qt.encode ⟨bbox.maxLng, bbox.maxLat⟩ precision
  envelopRows qt (2 ^ precision) maxCell (2 ^ precision) minCell rowEndCell ++ [maxCell]

/-! ## Basic lemmas about the codec -/

theorem encodeAux_length (c : Coordinate) :
    ∀ (o r : Coordinate) (n : ℕ), (encodeAux c o r n).1.length = n := by
  intro o r n
  induction n generalizing o r with
  | zero => rfl
  | succ n ih => simp [encodeAux, ih]

theorem Quadtree.encode_length (qt : Quadtree) (c : Coordinate) (n : ℕ) :
    (qt.encode c n).length = n :=
  encodeAux_length c _ _ n

/-- The digit emitted by `encodeStep` moves the origin exactly as
`decodeShift` moves it back while decoding. -/
theorem decodeShift_encodeStep (c o r : Coordinate) :
    decodeShift (encodeStep c o r).1 o r = (encodeStep c o r).2 := by
  unfold encodeStep decodeShift
  split_ifs with h1 h2 h3 <;> simp_all

/-- Decoding the string emitted by the encode loop from the same start state
replays the loop: the final `(origin, range)` states coincide. -/
theorem decodeAux_encodeAux (c : Coordinate) :
    ∀ (o r : Coordinate) (n : ℕ),
      decodeAux o r (encodeAux c o r n).1 = (encodeAux c o r n).2 := by
  intro o r n
  induction n generalizing o r with
  | zero => rfl
  | succ n ih =>
    simp only [encodeAux, decodeAux]
    rw [decodeShift_encodeStep]
    exact ih _ _

/-- Containment invariant of the encode loop: if the coordinate lies inside
the current cell `origin ± range`, it lies inside the final cell. -/
theorem encodeAux_contains (c : Coordinate) :
    ∀ (o r : Coordinate) (n : ℕ),
      o.lng - r.lng ≤ c.lng → c.lng ≤ o.lng + r.lng →
      o.lat - r.lat ≤ c.lat → c.lat ≤ o.lat + r.lat →
      ((encodeAux c o r n).2.1.lng - (encodeAux c o r n).2.2.lng ≤ c.lng ∧
        c.lng ≤ (encodeAux c o r n).2.1.lng + (encodeAux c o r n).2.2.lng) ∧
      ((encodeAux c o r n).2.1.lat - (encodeAux c o r n).2.2.lat ≤ c.lat ∧
        c.lat ≤ (encodeAux c o r n).2.1.lat + (encodeAux c o r n).2.2.lat) := by
  intro o r n
  induction n generalizing o r with
  | zero =>
    intro h1 h2 h3 h4
    exact ⟨⟨h1, h2⟩, h3, h4⟩
  | succ n ih =>
    intro h1 h2 h3 h4
    simp only [encodeAux]
    unfold encodeStep
    split_ifs with hA hB hC
    · exact ih _ _ (by simp [halveRange]; linarith [hA.1]) (by simp [halveRange]; linarith)
        (by simp [halveRange]; linarith [hA.2]) (by simp [halveRange]; linarith)
    · exact ih _ _ (by simp [halveRange]; linarith) (by simp [halveRange]; linarith [hB.1])
        (by simp [halveRange]; linarith [hB.2]) (by simp [halveRange]; linarith)
    · exact ih _ _ (by simp [halveRange]; linarith) (by simp [halveRange]; linarith [hC.1])
        (by simp [halveRange]; linarith) (by simp [halveRange]; linarith [hC.2])
    · have hlng : o.lng < c.lng := by
        by_contra hle
        push_neg at hle
        rcases le_or_lt o.lat c.lat with hlat | hlat
        · exact hB ⟨hle, hlat⟩
        · exact hC ⟨hle, le_of_lt hlat⟩
      have hlat : c.lat < o.lat := by
        by_contra hge
        push_neg at hge
        exact hA ⟨le_of_lt hlng, hge⟩
      exact ih _ _ (by simp [halveRange]; linarith) (by simp [halveRange]; linarith)
        (by simp [halveRange]; linarith) (by simp [halveRange]; linarith)

/-! ## C1: round-trip containment -/

/-- C1: for every coordinate inside the region and every precision, the
rectangle `boundingBox (encode c p)` contains `c`: exact over `ℚ`, hence in
particular within floating tolerance. -/
theorem c1_roundtrip_containment (qt : Quadtree) (c : Coordinate) (p : ℕ)
    (h1 : qt.minLng ≤ c.lng) (h2 : c.lng ≤ qt.maxLng)
    (h3 : qt.minLat ≤ c.lat) (h4 : c.lat ≤ qt.maxLat) :
    (qt.boundingBox (qt.encode c p)).minLng ≤ c.lng ∧
      c.lng ≤ (qt.boundingBox (qt.encode c p)).maxLng ∧
      (qt.boundingBox (qt.encode c p)).minLat ≤ c.lat ∧
      c.lat ≤ (qt.boundingBox (qt.encode c p)).maxLat := by
  have e1 : qt.center.lng - qt.halfRange.lng = qt.minLng := by
    simp only [Quadtree.center, Quadtree.halfRange]; ring
  have e2 : qt.center.lng + qt.halfRange.lng = qt.maxLng := by
    simp only [Quadtree.center, Quadtree.halfRange]; ring
  have e3 : qt.center.lat - qt.halfRange.lat = qt.minLat := by
    simp only [Quadtree.center, Quadtree.halfRange]; ring
  have e4 : qt.center.lat + qt.halfRange.lat = qt.maxLat := by
    simp only [Quadtree.center, Quadtree.halfRange]; ring
  have hcont := encodeAux_contains c qt.center qt.halfRange p
    (by rw [e1]; exact h1) (by rw [e2]; exact h2)
    (by rw [e3]; exact h3) (by rw [e4]; exact h4)
  have hdec := decodeAux_encodeAux c qt.center qt.halfRange p
  simp only [Quadtree.boundingBox, Quadtree.decode, Quadtree.encode, hdec]
  exact ⟨hcont.1.1, hcont.1.2, hcont.2.1, hcont.2.2⟩

/-- C1 witness: a concrete in-region coordinate at precision 3. -/
theorem c1_witness :
    (qtDefault.boundingBox (qtDefault.encode ⟨77, 12⟩ 3)).minLng ≤ 77 ∧
      (77 : ℚ) ≤ (qtDefault.boundingBox (qtDefault.encode ⟨77, 12⟩ 3)).maxLng ∧
      (qtDefault.boundingBox (qtDefault.encode ⟨77, 12⟩ 3)).minLat ≤ 12 ∧
      (12 : ℚ) ≤ (qtDefault.boundingBox (qtDefault.encode ⟨77, 12⟩ 3)).maxLat :=
  c1_roundtrip_containment qtDefault ⟨77, 12⟩ 3
    (by norm_num [qtDefault]) (by norm_num [qtDefault])
    (by norm_num [qtDefault]) (by norm_num [qtDefault])

/-! ## C5: neighbor result shape -/

/-- C5: `neighbor` returns the `"-1"` NotFound sentinel exactly when the
shifted candidate coordinate leaves the region bounds, and otherwise returns
`encode(candidate, len(path))`, a path of the same length as the input. -/
theorem c5_neighbor_spec (qt : Quadtree) (p : List Char) (east north : ℤ) :
    (qt.outOfBounds (qt.neighborCandidate p east north) →
        qt.neighbor p east north = ['-', '1']) ∧
      (¬ qt.outOfBounds (qt.neighborCandidate p east north) →
        qt.neighbor p east north =
            qt.encode (qt.neighborCandidate p east north) p.length ∧
          (qt.neighbor p east north).length = p.length) := by
  constructor
  · intro h
    simp [Quadtree.neighbor, h]
  · intro h
    simp [Quadtree.neighbor, h, Quadtree.encode_length]

/-- C5 witness: an east step out of the region (path `"11"`) hits the
sentinel; an in-region east step from `"21"` re-encodes at length 2. -/
theorem c5_witness :
    qtDefault.neighbor ['1', '1'] 1 0 = ['-', '1'] ∧
      qtDefault.neighbor ['2', '1'] 1 0 =
        qtDefault.encode (qtDefault.neighborCandidate ['2', '1'] 1 0) 2 :=
  ⟨(c5_neighbor_spec qtDefault ['1', '1'] 1 0).1
      (by simp [Quadtree.outOfBounds, Quadtree.neighborCandidate, Quadtree.decode,
          decodeAux, decodeShift, halveRange, Quadtree.center, Quadtree.halfRange, qtDefault]
          norm_num),
    ((c5_neighbor_spec qtDefault ['2', '1'] 1 0).2
      (by simp [Quadtree.outOfBounds, Quadtree.neighborCandidate, Quadtree.decode,
          decodeAux, decodeShift, halveRange, Quadtree.center, Quadtree.halfRange, qtDefault]
          norm_num)).1⟩

/-! ## C6: boundary tie-breaking -/

/-- C6 counterexample: it is not true that a coordinate exactly on the
running origin's lng boundary always selects a higher-lng quadrant: at
`c = (0, -45)` with origin `(0, 0)` the selected digit is `'3'`, whose lng
shift is negative; concretely `encode((0,-45), 1) = "3"` on the default
region. -/
theorem c6_counterexample :
    ¬ (∀ (c o r : Coordinate), c.lng = o.lng →
        digitLngDir (encodeStep c o r).1 = 1) := by
  intro h
  have h0 := h ⟨0, -45⟩ ⟨0, 0⟩ ⟨90, 45⟩ rfl
  have h1 : encodeStep ⟨0, -45⟩ ⟨0, 0⟩ ⟨90, 45⟩ = ('3', ⟨-90, -45⟩) := by
    simp [encodeStep]
    norm_num
  rw [h1] at h0
  exact absurd h0 (by decide)

/-- C6 amended: a coordinate exactly on the lat boundary always selects a
higher-lat quadrant; a coordinate exactly on the lng boundary selects the
higher-lng quadrant exactly when its lat is on or above the running origin,
and the lower-lng quadrant (digit `'3'`) when its lat is strictly below. -/
theorem c6_amended (c o r : Coordinate) :
    (c.lat = o.lat → digitLatDir (encodeStep c o r).1 = 1) ∧
      (c.lng = o.lng → o.lat ≤ c.lat → digitLngDir (encodeStep c o r).1 = 1) ∧
      (c.lng = o.lng → c.lat < o.lat → digitLngDir (encodeStep c o r).1 = -1) := by
  unfold encodeStep
  split_ifs with h1 h2 h3
  · exact ⟨fun _ => by simp [digitLatDir], fun _ _ => by simp [digitLngDir],
      fun _ hl => absurd h1.2 (not_le.mpr hl)⟩
  · exact ⟨fun _ => by simp [digitLatDir], fun he hl => absurd ⟨he.ge, hl⟩ h1,
      fun _ _ => by simp [digitLngDir]⟩
  · exact ⟨fun he => absurd ⟨h3.1, he.ge⟩ h2, fun he hl => absurd ⟨he.ge, hl⟩ h1,
      fun _ _ => by simp [digitLngDir]⟩
  · refine ⟨fun he => ?_, fun _ _ => by simp [digitLngDir],
      fun he hl => absurd ⟨he.le, hl.le⟩ h3⟩
    rcases le_or_lt c.lng o.lng with h | h
    · exact absurd ⟨h, he.ge⟩ h2
    · exact absurd ⟨h.le, he.ge⟩ h1

/-- C6 witness: on-boundary inputs at concrete values: `(0,0)` against
origin `(0,0)` takes the high-lat and high-lng quadrant, `(0,-1)` against
origin `(0,0)` takes a lower-lng quadrant. -/
theorem c6_witness :
    digitLatDir (encodeStep ⟨0, 0⟩ ⟨0, 0⟩ ⟨90, 45⟩).1 = 1 ∧
      digitLngDir (encodeStep ⟨0, 0⟩ ⟨0, 0⟩ ⟨90, 45⟩).1 = 1 ∧
      digitLngDir (encodeStep ⟨0, -1⟩ ⟨0, 0⟩ ⟨90, 45⟩).1 = -1 :=
  ⟨(c6_amended ⟨0, 0⟩ ⟨0, 0⟩ ⟨90, 45⟩).1 rfl,
    (c6_amended ⟨0, 0⟩ ⟨0, 0⟩ ⟨90, 45⟩).2.1 rfl le_rfl,
    (c6_amended ⟨0, -1⟩ ⟨0, 0⟩ ⟨90, 45⟩).2.2 rfl (by norm_num)⟩

/-! ## C4: decode on unrecognized digits -/

/-- C4: the code does not reject unrecognized digits: `decode("5")` on the
default region silently skips the origin shift (while still halving the
error) and returns a plain `DecodedCell`, where the claim requires an
`InvalidPath` failure. -/
theorem c4_decode_skips_unrecognized :
    qtDefault.decode ['5'] = ⟨⟨0, 0⟩, ⟨90, 45⟩⟩ := by
  simp [Quadtree.decode, decodeAux, decodeShift, halveRange, Quadtree.center,
    Quadtree.halfRange, qtDefault]
  norm_num

/-! ## C2: shape of the k-nearest result -/

theorem mem_bucketAt (targetEnc : List Char) (pts : List AnnotatedPoint) (i : ℕ)
    (x : AnnotatedPoint) (hx : x ∈ bucketAt targetEnc pts i) : x ∈ pts := by
  unfold bucketAt at hx
  exact (List.mem_filter.mp hx).1

theorem collectAux_subset (targetEnc : List Char) (pts : List AnnotatedPoint) (k : ℤ) :
    ∀ (i : ℕ) (acc : List AnnotatedPoint) (brk : Bool) (x : AnnotatedPoint),
      x ∈ collectAux targetEnc pts k i acc brk → x ∈ acc ∨ x ∈ pts := by
  intro i
  induction i with
  | zero =>
    intro acc brk x hx
    rw [collectAux] at hx
    rcases List.mem_append.mp hx with h | h
    · exact Or.inl h
    · exact Or.inr (mem_bucketAt _ _ _ _ h)
  | succ i ih =>
    intro acc brk x hx
    rw [collectAux] at hx
    by_cases hb : brk = true
    · rw [if_pos hb] at hx
      rcases List.mem_append.mp hx with h | h
      · exact Or.inl h
      · exact Or.inr (mem_bucketAt _ _ _ _ h)
    · rw [if_neg hb] at hx
      rcases ih _ _ x hx with h | h
      · rcases List.mem_append.mp h with h2 | h2
        · exact Or.inl h2
        · exact Or.inr (mem_bucketAt _ _ _ _ h2)
      · exact Or.inr h

theorem jsSlice_sublist {α : Type} (l : List α) (k : ℤ) : (jsSlice l k).Sublist l := by
  unfold jsSlice
  split_ifs <;> exact List.take_sublist _ _

/-- C2: the k-nearest search returns at most `k` points, sorted by
non-decreasing distance to the target (for every distance function, hence in
particular for the Haversine distance), returns `[]` on an empty point list,
and never pads: every returned point comes from the input list. -/
theorem c2_knearest_shape (dist : Coordinate → Coordinate → ℚ)
    (target : AnnotatedPoint) (points : List AnnotatedPoint) (k : ℤ) :
    (0 ≤ k → (sortPointsByProximityToTarget dist target points k).length ≤ k.toNat) ∧
      (points = [] → sortPointsByProximityToTarget dist target points k = []) ∧
      List.Sorted (distRel dist target.coord)
        (sortPointsByProximityToTarget dist target points k) ∧
      (∀ x ∈ sortPointsByProximityToTarget dist target points k, x ∈ points) := by
  by_cases hp : points.length = 0
  · simp [sortPointsByProximityToTarget, hp]
  · have hres : sortPointsByProximityToTarget dist target points k =
        jsSlice
          (List.insertionSort (distRel dist target.coord)
            (collectCandidates target.encoded points k)) k := by
      rw [sortPointsByProximityToTarget, if_neg hp]
    refine ⟨?_, ?_, ?_, ?_⟩
    · intro hk
      rw [hres]
      unfold jsSlice
      rw [if_neg (not_lt.mpr hk)]
      exact List.length_take_le _ _
    · intro h
      exact absurd (by simp [h]) hp
    · rw [hres]
      exact List.Pairwise.sublist (jsSlice_sublist _ _) (List.sorted_insertionSort _ _)
    · intro x hx
      rw [hres] at hx
      have hx2 := List.Sublist.mem hx (jsSlice_sublist _ _)
      rw [List.mem_insertionSort] at hx2
      rcases collectAux_subset target.encoded points k target.encoded.length [] false x hx2 with h | h
      · exact absurd h (List.not_mem_nil x)
      · exact h

/-- C2 witness: concrete search calls: with k = 1 over two points the result
has at most one element, and the empty input returns the empty list. -/
theorem c2_witness :
    (sortPointsByProximityToTarget (fun a b => |b.lng - a.lng| + |b.lat - a.lat|)
        ⟨0, 0, ['1']⟩ [⟨1, 1, ['1']⟩, ⟨2, 2, ['2']⟩] 1).length ≤ (1 : ℤ).toNat ∧
      sortPointsByProximityToTarget (fun a b => |b.lng - a.lng| + |b.lat - a.lat|)
        ⟨0, 0, ['1']⟩ [] 1 = [] :=
  ⟨(c2_knearest_shape (fun a b => |b.lng - a.lng| + |b.lat - a.lat|)
      ⟨0, 0, ['1']⟩ [⟨1, 1, ['1']⟩, ⟨2, 2, ['2']⟩] 1).1 (by decide),
    (c2_knearest_shape (fun a b => |b.lng - a.lng| + |b.lat - a.lat|)
      ⟨0, 0, ['1']⟩ [] 1).2.1 rfl⟩

/-! ## C3: characterization of the candidate set -/

theorem collectAux_brk_true (targetEnc : List Char) (pts : List AnnotatedPoint) (k : ℤ) :
    ∀ (i : ℕ) (acc : List AnnotatedPoint),
      collectAux targetEnc pts k i acc true = acc ++ bucketAt targetEnc pts i := by
  intro i acc
  cases i <;> simp [collectAux]

theorem specStopIndex_le (targetEnc : List Char) (pts : List AnnotatedPoint) (k : ℤ) :
    ∀ (i : ℕ) (c : ℤ), specStopIndex targetEnc pts k i c ≤ i := by
  intro i
  induction i with
  | zero => intro c; simp [specStopIndex]
  | succ i ih =>
    intro c
    rw [specStopIndex]
    split_ifs
    · exact Nat.le_succ i
    · exact (ih _).trans (Nat.le_succ i)

theorem bucketsDescFromTo_self (targetEnc : List Char) (pts : List AnnotatedPoint) (i : ℕ) :
    bucketsDescFromTo targetEnc pts i i = bucketAt targetEnc pts i := by
  unfold bucketsDescFromTo
  rw [Nat.add_sub_cancel_left]
  simp

theorem bucketsDescFromTo_step (targetEnc : List Char) (pts : List AnnotatedPoint)
    (lo i : ℕ) (h : lo ≤ i + 1) :
    bucketsDescFromTo targetEnc pts lo (i + 1) =
      bucketAt targetEnc pts (i + 1) ++ bucketsDescFromTo targetEnc pts lo i := by
  unfold bucketsDescFromTo
  have h1 : i + 1 + 1 - lo = (i + 1 - lo) + 1 := by omega
  have h2 : lo + (i + 1 - lo) = i + 1 := by omega
  rw [h1, List.range'_1_concat, h2, List.reverse_append]
  simp

/-- The collection loop with the flag still unset equals the prefix of the
downward bucket scan running to the spec's stopping index. -/
theorem collectAux_eq_spec (targetEnc : List Char) (pts : List AnnotatedPoint) (k : ℤ) :
    ∀ (i : ℕ) (acc : List AnnotatedPoint),
      collectAux targetEnc pts k i acc false =
        acc ++ bucketsDescFromTo targetEnc pts
          (specStopIndex targetEnc pts k i (acc.length : ℤ)) i := by
  intro i
  induction i with
  | zero =>
    intro acc
    rw [collectAux, specStopIndex, bucketsDescFromTo_self]
  | succ i ih =>
    intro acc
    rw [collectAux, specStopIndex]
    simp only [Bool.false_eq_true, if_false]
    have hlen : ((acc ++ bucketAt targetEnc pts (i + 1)).length : ℤ) =
        (acc.length : ℤ) + ((bucketAt targetEnc pts (i + 1)).length : ℤ) := by
      push_cast [List.length_append]
      ring
    by_cases hk : k ≤ (acc.length : ℤ) + ((bucketAt targetEnc pts (i + 1)).length : ℤ)
    · rw [if_pos hk]
      have hdec : decide (k ≤ ((acc ++ bucketAt targetEnc pts (i + 1)).length : ℤ)) = true := by
        rw [hlen]
        exact decide_eq_true hk
      rw [hdec, collectAux_brk_true,
        bucketsDescFromTo_step targetEnc pts i i (Nat.le_succ i),
        bucketsDescFromTo_self, List.append_assoc]
    · rw [if_neg hk]
      have hdec : decide (k ≤ ((acc ++ bucketAt targetEnc pts (i + 1)).length : ℤ)) = false := by
        rw [hlen]
        exact decide_eq_false hk
      rw [hdec, ih, hlen, List.append_assoc,
        ← bucketsDescFromTo_step targetEnc pts _ i
          ((specStopIndex_le targetEnc pts k i _).trans (Nat.le_succ i))]

/-- C3: the candidate set of the search equals the union of the prefix-match
buckets scanned from index `precision` (= the target path length) downward
through exactly one bucket past the first index at which the accumulated
count reaches or exceeds `k` — clamped at bucket `0`, which is also where
the scan ends when the count never reaches `k`; no bucket below that
stopping index contributes. -/
theorem c3_candidate_buckets (targetEnc : List Char) (points : List AnnotatedPoint) (k : ℤ) :
    collectCandidates targetEnc points k =
      bucketsDescFromTo targetEnc points
        (specStopIndex targetEnc points k targetEnc.length 0) targetEnc.length := by
  unfold collectCandidates
  have h := collectAux_eq_spec targetEnc points k targetEnc.length []
  simpa using h

/-! ## C7: the zero-offset neighbor call -/

theorem decodeShift_dist (q : Char) (o r : Coordinate)
    (h1 : 0 ≤ r.lng) (h2 : 0 ≤ r.lat) :
    |(decodeShift q o r).lng - o.lng| ≤ r.lng ∧
      |(decodeShift q o r).lat - o.lat| ≤ r.lat := by
  unfold decodeShift
  split_ifs <;>
    constructor <;>
      (rw [abs_le]; constructor <;> simp <;> linarith)

/-- The decoded origin moves away from the initial origin by strictly less
than the initial range: at most `range * (1 - (1/2)^n)` on each axis. -/
theorem decodeAux_center_bound :
    ∀ (l : List Char) (o r : Coordinate), 0 ≤ r.lng → 0 ≤ r.lat →
      |(decodeAux o r l).1.lng - o.lng| ≤ r.lng * (1 - (1 / 2 : ℚ) ^ l.length) ∧
        |(decodeAux o r l).1.lat - o.lat| ≤ r.lat * (1 - (1 / 2 : ℚ) ^ l.length) := by
  intro l
  induction l with
  | nil =>
    intro o r h1 h2
    simp [decodeAux]
  | cons q rest ih =>
    intro o r h1 h2
    have hr2l : 0 ≤ (halveRange r).lng := by simp [halveRange]; linarith
    have hr2t : 0 ≤ (halveRange r).lat := by simp [halveRange]; linarith
    have hs := decodeShift_dist q o (halveRange r) hr2l hr2t
    have hb := ih (decodeShift q o (halveRange r)) (halveRange r) hr2l hr2t
    simp only [decodeAux, List.length_cons]
    constructor
    · calc |(decodeAux (decodeShift q o (halveRange r)) (halveRange r) rest).1.lng - o.lng|
          ≤ |(decodeAux (decodeShift q o (halveRange r)) (halveRange r) rest).1.lng -
              (decodeShift q o (halveRange r)).lng| +
            |(decodeShift q o (halveRange r)).lng - o.lng| := abs_sub_le _ _ _
        _ ≤ (halveRange r).lng * (1 - (1 / 2 : ℚ) ^ rest.length) + (halveRange r).lng :=
            add_le_add hb.1 hs.1
        _ = r.lng * (1 - (1 / 2 : ℚ) ^ (rest.length + 1)) := by
            simp [halveRange, pow_succ]
            ring
    · calc |(decodeAux (decodeShift q o (halveRange r)) (halveRange r) rest).1.lat - o.lat|
          ≤ |(decodeAux (decodeShift q o (halveRange r)) (halveRange r) rest).1.lat -
              (decodeShift q o (halveRange r)).lat| +
            |(decodeShift q o (halveRange r)).lat - o.lat| := abs_sub_le _ _ _
        _ ≤ (halveRange r).lat * (1 - (1 / 2 : ℚ) ^ rest.length) + (halveRange r).lat :=
            add_le_add hb.2 hs.2
        _ = r.lat * (1 - (1 / 2 : ℚ) ^ (rest.length + 1)) := by
            simp [halveRange, pow_succ]
            ring

/-- Re-encoding the decoded center of a valid-digit path, from the same
start state and at the same precision, reproduces the path (the start range
must be positive on both axes). -/
theorem encodeAux_decode_center :
    ∀ (l : List Char) (o r : Coordinate), 0 < r.lng → 0 < r.lat →
      (∀ d ∈ l, ValidDigit d) →
      (encodeAux ((decodeAux o r l).1) o r l.length).1 = l := by
  intro l
  induction l with
  | nil => intro o r _ _ _; rfl
  | cons d rest ih =>
    intro o r hrl hrt hv
    have hr2l : (0:ℚ) < (halveRange r).lng := by simp [halveRange]; linarith
    have hr2t : (0:ℚ) < (halveRange r).lat := by simp [halveRange]; linarith
    have hpow : (0:ℚ) < (1 / 2 : ℚ) ^ rest.length := by positivity
    have hvr : ∀ x ∈ rest, ValidDigit x := fun x hx => hv x (List.mem_cons_of_mem d hx)
    obtain ⟨hb1, hb2⟩ := decodeAux_center_bound rest (decodeShift d o (halveRange r))
      (halveRange r) hr2l.le hr2t.le
    rw [abs_le] at hb1 hb2
    have hml : (0:ℚ) < (halveRange r).lng * ((1 / 2 : ℚ) ^ rest.length) :=
      mul_pos hr2l hpow
    have hmt : (0:ℚ) < (halveRange r).lat * ((1 / 2 : ℚ) ^ rest.length) :=
      mul_pos hr2t hpow
    have hstep : encodeStep ((decodeAux (decodeShift d o (halveRange r)) (halveRange r) rest).1)
        o (halveRange r) = (d, decodeShift d o (halveRange r)) := by
      rcases hv d (List.mem_cons_self d rest) with h | h | h | h <;> subst h
      · simp only [decodeShift, Char.reduceEq, reduceIte] at hb1 hb2 ⊢
        have hA : o.lng ≤ (decodeAux ⟨o.lng + (halveRange r).lng, o.lat + (halveRange r).lat⟩
            (halveRange r) rest).1.lng := by
          have := hb1.1
          simp only at this
          nlinarith [hml]
        have hB : o.lat ≤ (decodeAux ⟨o.lng + (halveRange r).lng, o.lat + (halveRange r).lat⟩
            (halveRange r) rest).1.lat := by
          have := hb2.1
          simp only at this
          nlinarith [hmt]
        unfold encodeStep
        rw [if_pos ⟨hA, hB⟩]
      · simp only [decodeShift, Char.reduceEq, reduceIte] at hb1 hb2 ⊢
        have hA : (decodeAux ⟨o.lng - (halveRange r).lng, o.lat + (halveRange r).lat⟩
            (halveRange r) rest).1.lng < o.lng := by
          have := hb1.2
          simp only at this
          nlinarith [hml]
        have hB : o.lat < (decodeAux ⟨o.lng - (halveRange r).lng, o.lat + (halveRange r).lat⟩
            (halveRange r) rest).1.lat := by
          have := hb2.1
          simp only at this
          nlinarith [hmt]
        unfold encodeStep
        rw [if_neg (fun hcon => absurd hcon.1 (not_le.mpr hA)), if_pos ⟨hA.le, hB.le⟩]
      · simp only [decodeShift, Char.reduceEq, reduceIte] at hb1 hb2 ⊢
        have hA : (decodeAux ⟨o.lng - (halveRange r).lng, o.lat - (halveRange r).lat⟩
            (halveRange r) rest).1.lng < o.lng := by
          have := hb1.2
          simp only at this
          nlinarith [hml]
        have hB : (decodeAux ⟨o.lng - (halveRange r).lng, o.lat - (halveRange r).lat⟩
            (halveRange r) rest).1.lat < o.lat := by
          have := hb2.2
          simp only at this
          nlinarith [hmt]
        unfold encodeStep
        rw [if_neg (fun hcon => absurd hcon.1 (not_le.mpr hA)),
          if_neg (fun hcon => absurd hcon.2 (not_le.mpr hB)), if_pos ⟨hA.le, hB.le⟩]
      · simp only [decodeShift, Char.reduceEq, reduceIte] at hb1 hb2 ⊢
        have hA : o.lng < (decodeAux ⟨o.lng + (halveRange r).lng, o.lat - (halveRange r).lat⟩
            (halveRange r) rest).1.lng := by
          have := hb1.1
          simp only at this
          nlinarith [hml]
        have hB : (decodeAux ⟨o.lng + (halveRange r).lng, o.lat - (halveRange r).lat⟩
            (halveRange r) rest).1.lat < o.lat := by
          have := hb2.2
          simp only at this
          nlinarith [hmt]
        unfold encodeStep
        rw [if_neg (fun hcon => absurd hcon.2 (not_le.mpr hB)),
          if_neg (fun hcon => absurd hcon.1 (not_le.mpr hA)),
          if_neg (fun hcon => absurd hcon.1 (not_le.mpr hA))]
    simp only [decodeAux, encodeAux, List.length_cons]
    rw [hstep]
    exact congrArg (List.cons d) (ih _ _ hr2l hr2t hvr)

/-- The decoded origin of any path (valid digits or not) stays inside the
region whenever the region is non-inverted. -/
theorem decode_center_in_region (qt : Quadtree) (l : List Char)
    (h1 : qt.minLng ≤ qt.maxLng) (h2 : qt.minLat ≤ qt.maxLat) :
    ¬ qt.outOfBounds (qt.decode l).origin := by
  have hHl : 0 ≤ qt.halfRange.lng := by simp [Quadtree.halfRange]; linarith
  have hHt : 0 ≤ qt.halfRange.lat := by simp [Quadtree.halfRange]; linarith
  obtain ⟨hb1, hb2⟩ := decodeAux_center_bound l qt.center qt.halfRange hHl hHt
  rw [abs_le] at hb1 hb2
  have hpow0 : (0:ℚ) ≤ (1 / 2 : ℚ) ^ l.length := by positivity
  have hml : (0:ℚ) ≤ qt.halfRange.lng * ((1 / 2 : ℚ) ^ l.length) := mul_nonneg hHl hpow0
  have hmt : (0:ℚ) ≤ qt.halfRange.lat * ((1 / 2 : ℚ) ^ l.length) := mul_nonneg hHt hpow0
  have e1 : qt.center.lng - qt.halfRange.lng = qt.minLng := by
    simp only [Quadtree.center, Quadtree.halfRange]; ring
  have e2 : qt.center.lng + qt.halfRange.lng = qt.maxLng := by
    simp only [Quadtree.center, Quadtree.halfRange]; ring
  have e3 : qt.center.lat - qt.halfRange.lat = qt.minLat := by
    simp only [Quadtree.center, Quadtree.halfRange]; ring
  have e4 : qt.center.lat + qt.halfRange.lat = qt.maxLat := by
    simp only [Quadtree.center, Quadtree.halfRange]; ring
  unfold Quadtree.outOfBounds Quadtree.decode
  push_neg
  refine ⟨?_, ?_, ?_, ?_⟩ <;> simp only <;> nlinarith [hb1.1, hb1.2, hb2.1, hb2.2]

/-- C7 amended: for a region with strictly positive extent on both axes and
a path made of the four quadrant digits, the zero-offset neighbor call is
the identity: `neighbor(p, 0, 0) = p`.  (On degenerate regions — allowed by
the constructor, which only requires `min ≤ max` — the re-encode can land in
a different same-center cell; see the counterexample.) -/
theorem c7_neighbor_zero_identity (qt : Quadtree) (p : List Char)
    (hlng : qt.minLng < qt.maxLng) (hlat : qt.minLat < qt.maxLat)
    (hp : ∀ d ∈ p, ValidDigit d) :
    qt.neighbor p 0 0 = p := by
  have hcand : qt.neighborCandidate p 0 0 = (qt.decode p).origin := by
    unfold Quadtree.neighborCandidate
    push_cast
    simp
  have hHl : (0:ℚ) < qt.halfRange.lng := by simp [Quadtree.halfRange]; linarith
  have hHt : (0:ℚ) < qt.halfRange.lat := by simp [Quadtree.halfRange]; linarith
  unfold Quadtree.neighbor
  rw [hcand, if_neg (decode_center_in_region qt p hlng.le hlat.le)]
  have henc := encodeAux_decode_center p qt.center qt.halfRange hHl hHt hp
  simpa [Quadtree.encode, Quadtree.decode] using henc

/-- C7 counterexample: the claim quantifies over every Region, but on the
valid degenerate region `(0, 0, 100, 0)` (the constructor assert allows
`minLat = maxLat`) the zero-offset call is not the identity:
`neighbor("4", 0, 0) = "1"`. -/
theorem c7_counterexample :
    Quadtree.Valid ⟨0, 0, 100, 0⟩ ∧
      Quadtree.neighbor ⟨0, 0, 100, 0⟩ ['4'] 0 0 = ['1'] ∧
      ['1'] ≠ ['4'] := by
  refine ⟨by norm_num [Quadtree.Valid], ?_, by decide⟩
  simp [Quadtree.neighbor, Quadtree.neighborCandidate, Quadtree.outOfBounds,
    Quadtree.decode, decodeAux, decodeShift, halveRange, Quadtree.center,
    Quadtree.halfRange, Quadtree.encode, encodeAux, encodeStep]
  norm_num

/-- C7 witness: on the default region the zero-offset call fixes the
path `"24"`. -/
theorem c7_witness : qtDefault.neighbor ['2', '4'] 0 0 = ['2', '4'] :=
  c7_neighbor_zero_identity qtDefault ['2', '4']
    (by norm_num [qtDefault]) (by norm_num [qtDefault]) (by decide)

/-! ## C8: missing input validation -/

/-- C8: the code performs no input validation: `encode` with a negative
precision runs its loop zero times and returns the empty path, and the
k-nearest search with `k = 0` returns the empty result list — instead of
failing with a descriptive error as the claim requires. -/
theorem c8_no_validation :
    qtDefault.encodeInt ⟨45, 45⟩ (-3) = [] ∧
      sortPointsByProximityToTarget (fun a b => |b.lng - a.lng| + |b.lat - a.lat|)
        ⟨0, 0, ['1']⟩ [⟨1, 1, ['1']⟩] 0 = [] := by
  constructor
  · rfl
  · rfl

/-! ## C9: side effects on caller-supplied arguments -/

/-- C9 counterexample: `sortPointsByHaversineFormula` is not side-effect-free
on its arguments: `points.sort(...)` sorts the caller's array in place, so
with a two-point list whose order disagrees with the distance order the
array's contents after the call differ from before. -/
theorem c9_counterexample :
    ¬ (∀ (dist : Coordinate → Coordinate → ℚ) (target : Coordinate)
        (points : List Coordinate),
        (sortPointsByHaversineFormula dist target points).2 = points) := by
  intro h
  have h0 := h (fun a b => |b.lng - a.lng| + |b.lat - a.lat|) ⟨0, 0⟩ [⟨5, 0⟩, ⟨1, 0⟩]
  have h1 : (sortPointsByHaversineFormula (fun a b => |b.lng - a.lng| + |b.lat - a.lat|)
      ⟨0, 0⟩ [⟨5, 0⟩, ⟨1, 0⟩]).2 = [⟨1, 0⟩, ⟨5, 0⟩] := by
    simp [sortPointsByHaversineFormula, List.insertionSort, List.orderedInsert, coordDistRel]
  rw [h1] at h0
  have h2 : ((⟨1, 0⟩ : Coordinate) = ⟨5, 0⟩) → False := by
    intro hq
    have := congrArg Coordinate.lng hq
    norm_num at this
  exact h2 (List.head_eq_of_cons_eq h0)

/-- C9 amended: in the embedding every operation is a pure function of its
inputs, and the proximity search does not touch the caller's `points` list;
the one exception to argument preservation is `sortPointsByHaversineFormula`,
which sorts the caller's array in place: its return value aliases the
argument, the argument's contents after the call are the distance-sorted
permutation of its previous contents, and those contents are unchanged
exactly when the input was already sorted. -/
theorem c9_inplace_sort_effect (dist : Coordinate → Coordinate → ℚ)
    (target : Coordinate) (points : List Coordinate) :
    (sortPointsByHaversineFormula dist target points).1 =
        (sortPointsByHaversineFormula dist target points).2 ∧
      ((sortPointsByHaversineFormula dist target points).2).Perm points ∧
      List.Sorted (coordDistRel dist target)
        (sortPointsByHaversineFormula dist target points).2 ∧
      ((sortPointsByHaversineFormula dist target points).2 = points ↔
        List.Sorted (coordDistRel dist target) points) := by
  refine ⟨rfl, List.perm_insertionSort _ _, List.sorted_insertionSort _ _, ?_, ?_⟩
  · intro h
    rw [← h]
    exact List.sorted_insertionSort _ _
  · intro h
    exact h.insertionSort_eq

/-! ## C10: envelope of a single precision-1 cell -/

/-- C10 amended: for a non-inverted region, the envelope of the bounding box
of the precision-1 cell `"1"` (the high-lng/high-lat quadrant, whose corners
tie-break back into the cell itself) at precision 1 is the single-element
set containing that cell's path.  For the other three quadrant cells the
corner encodes tie-break across the shared cell boundary and the scan leaks
into adjacent cells (see the counterexample). -/
theorem c10_envelop_singleton (qt : Quadtree)
    (h1 : qt.minLng ≤ qt.maxLng) (h2 : qt.minLat ≤ qt.maxLat) :
    (qt.envelop (qt.boundingBox ['1']) 1).toFinset = {['1']} := by
  have hHl : 0 ≤ qt.halfRange.lng := by simp [Quadtree.halfRange]; linarith
  have hHt : 0 ≤ qt.halfRange.lat := by simp [Quadtree.halfRange]; linarith
  have hbb : qt.boundingBox ['1'] =
      ⟨qt.center.lng, qt.center.lat,
        qt.center.lng + qt.halfRange.lng, qt.center.lat + qt.halfRange.lat⟩ := by
    simp only [Quadtree.boundingBox, Quadtree.decode, decodeAux, decodeShift, halveRange,
      Char.reduceEq, reduceIte]
    congr 1 <;> ring
  have henc : ∀ c : Coordinate, qt.center.lng ≤ c.lng → qt.center.lat ≤ c.lat →
      qt.encode c 1 = ['1'] := by
    intro c hc1 hc2
    simp [Quadtree.encode, encodeAux, encodeStep, hc1, hc2]
  rw [hbb]
  simp only [Quadtree.envelop]
  rw [henc ⟨qt.center.lng, qt.center.lat⟩ le_rfl le_rfl,
    henc ⟨qt.center.lng + qt.halfRange.lng, qt.center.lat⟩
      (le_add_of_nonneg_right hHl) le_rfl,
    henc ⟨qt.center.lng + qt.halfRange.lng, qt.center.lat + qt.halfRange.lat⟩
      (le_add_of_nonneg_right hHl) (le_add_of_nonneg_right hHt)]
  simp [envelopRows, walkEast]

/-- C10 witness: the amended statement at the default region. -/
theorem c10_witness :
    (qtDefault.envelop (qtDefault.boundingBox ['1']) 1).toFinset = {['1']} :=
  c10_envelop_singleton qtDefault (by norm_num [qtDefault]) (by norm_num [qtDefault])

/-- C10 counterexample: for the precision-1 cell `"4"` of the default region
the envelope of its own bounding box is not the singleton of its path: the
bbox corners `(0,-90)` and `(180,0)` tie-break into the adjacent cells `"3"`
and `"1"`, and the scan visits all four quadrants. -/
theorem c10_counterexample :
    (qtDefault.envelop (qtDefault.boundingBox ['4']) 1).toFinset ≠ ({['4']} : Finset (List Char)) := by
  have hbb : qtDefault.boundingBox ['4'] = ⟨0, -90, 180, 0⟩ := by
    simp only [Quadtree.boundingBox, Quadtree.decode, decodeAux, decodeShift, halveRange,
      Char.reduceEq, reduceIte, Quadtree.center, Quadtree.halfRange, qtDefault]
    congr 1 <;> norm_num
  have hmin : qtDefault.encode ⟨0, -90⟩ 1 = ['3'] := by
    simp [Quadtree.encode, encodeAux, encodeStep, Quadtree.center, Quadtree.halfRange, qtDefault]
    try norm_num
  have hrow : qtDefault.encode ⟨180, -90⟩ 1 = ['4'] := by
    simp [Quadtree.encode, encodeAux, encodeStep, Quadtree.center, Quadtree.halfRange, qtDefault]
    try norm_num
  have hmax : qtDefault.encode ⟨180, 0⟩ 1 = ['1'] := by
    simp [Quadtree.encode, encodeAux, encodeStep, Quadtree.center, Quadtree.halfRange, qtDefault]
    try norm_num
  have hn34 : qtDefault.neighbor ['3'] 1 0 = ['4'] := by
    simp [Quadtree.neighbor, Quadtree.neighborCandidate, Quadtree.outOfBounds,
      Quadtree.decode, decodeAux, decodeShift, halveRange, Quadtree.center,
      Quadtree.halfRange, qtDefault, Quadtree.encode, encodeAux, encodeStep]
    try norm_num
  have hn3n : qtDefault.neighbor ['3'] 0 1 = ['2'] := by
    simp [Quadtree.neighbor, Quadtree.neighborCandidate, Quadtree.outOfBounds,
      Quadtree.decode, decodeAux, decodeShift, halveRange, Quadtree.center,
      Quadtree.halfRange, qtDefault, Quadtree.encode, encodeAux, encodeStep]
    try norm_num
  have hn4n : qtDefault.neighbor ['4'] 0 1 = ['1'] := by
    simp [Quadtree.neighbor, Quadtree.neighborCandidate, Quadtree.outOfBounds,
      Quadtree.decode, decodeAux, decodeShift, halveRange, Quadtree.center,
      Quadtree.halfRange, qtDefault, Quadtree.encode, encodeAux, encodeStep]
    try norm_num
  have hn21 : qtDefault.neighbor ['2'] 1 0 = ['1'] := by
    simp [Quadtree.neighbor, Quadtree.neighborCandidate, Quadtree.outOfBounds,
      Quadtree.decode, decodeAux, decodeShift, halveRange, Quadtree.center,
      Quadtree.halfRange, qtDefault, Quadtree.encode, encodeAux, encodeStep]
    try norm_num
  rw [hbb]
  simp only [Quadtree.envelop]
  rw [hmin, hrow, hmax]
  simp [envelopRows, walkEast, hn34, hn3n, hn4n, hn21]
  decide
